import Mathlib

/-!
# Verification of the `convert` pipeline of the pdf-to-markdown repository

This file is a shallow embedding of `src/convert.ts` (the document-to-Markdown
conversion pipeline).  Pure string computations of the source (extension
dispatch, image-filename generation, the unused-image regular expression, the
instruction-template selection) are translated into executable Lean functions;
the file-system side effects (existence check, reads, writes, deletions) are
modelled by an explicit event trace and an explicit set of files present in the
output directory; the external collaborators (the PDF parser, the DOCX
converter, the generative-model endpoint) are modelled by their outputs, which
are taken as inputs of the model.
-/

/-! ## String helpers -/

/-- ASCII lower-casing of a string, character by character.  Models the effect
of JavaScript `toLowerCase()` on the ASCII strings handled by the pipeline. -/
def toLowerStr (s : String) : String :=
  String.mk (s.data.map Char.toLower)

/-- Whether `nd` occurs as a contiguous substring of `hay`. -/
def hasSub (nd : List Char) : List Char → Bool
  | [] => nd.isEmpty
  | c :: rest => nd.isPrefixOf (c :: rest) || hasSub nd rest

/-- Number of positions of `hay` at which `nd` occurs as a prefix. -/
def countSub (nd : List Char) : List Char → Nat
  | [] => if nd.isEmpty then 1 else 0
  | c :: rest => (if nd.isPrefixOf (c :: rest) then 1 else 0) + countSub nd rest

/-- `node:path`'s `extname`: the extension of the last path segment, from the
last `.` to the end; empty when the segment has no dot, when its only dot is
the leading character (`.bashrc`), or for the segment `..`. -/
def extname (p : String) : String :=
  -- reversed basename (characters of the last `/`-separated segment)
  let rb := p.data.reverse.takeWhile (fun c => c != '/')
  if rb = ['.', '.'] then "" else
  let afterDot := rb.takeWhile (fun c => c != '.')
  match rb.drop afterDot.length with
  | '.' :: [] => ""                                   -- the dot is the leading character
  | '.' :: _ => String.mk ('.' :: afterDot.reverse)   -- ".ext"
  | _ => ""                                           -- no dot at all

/-- `extname(inputFilePath).toLowerCase()` as computed by `convert`
(src/convert.ts line 33). -/
def extnameLower (p : String) : String :=
  toLowerStr (extname p)

/-- `supportedExtensions` (src/convert.ts line 34). -/
def supportedExtensions : List String :=
  [".pdf", ".docx", ".png", ".jpg", ".jpeg", ".gif", ".webp"]

/-- `imageExtensions` (src/convert.ts line 35). -/
def imageExtensions : List String :=
  [".png", ".jpg", ".jpeg", ".gif", ".webp"]

/-! ## The unused-image regular expression

src/convert.ts line 266:
`const imageRegex = /!\[.*?\]\(([^)]+\.(png|jpg|jpeg|gif|webp))\)/gi;`
scanned over the final Markdown with repeated `exec` calls, each search
resuming where the previous match ended.  The embedding below reproduces the
JavaScript backtracking semantics of this particular pattern. -/

/-- Characters matched by `.` in a JavaScript regex without the `s` flag
(everything except the four line terminators). -/
def isDotChar (c : Char) : Bool :=
  c != '\n' && c != '\r' && c != Char.ofNat 0x2028 && c != Char.ofNat 0x2029

/-- Case-insensitive character-list comparison (the regex carries the `i`
flag; all pattern letters are ASCII). -/
def ciEq (a b : List Char) : Bool :=
  a.map Char.toLower == b.map Char.toLower

/-- The extension alternatives `png|jpg|jpeg|gif|webp` of the regex. -/
def regexExts : List (List Char) :=
  [['p','n','g'], ['j','p','g'], ['j','p','e','g'], ['g','i','f'], ['w','e','b','p']]

/-- Whether `run` ends (case-insensitively) in `'.'` followed by `ext`, with a
non-empty stem before the dot. -/
def endsWithDotExt (run : List Char) (ext : List Char) : Bool :=
  ext.length + 2 ≤ run.length && ciEq (run.drop (run.length - ext.length - 1)) ('.' :: ext)

/-- Whether the maximal `[^)]+` run can be completed by the regex tail
`\.(png|jpg|jpeg|gif|webp)` so that the closing `\)` lands on the first `)`;
by the greedy/backtracking analysis of the pattern this holds exactly when the
run ends in a dot, a listed extension (case-insensitive), and has a non-empty
stem, and the capture group is then the whole run. -/
def validCapture (run : List Char) : Bool :=
  regexExts.any (fun e => endsWithDotExt run e)

/-- Attempt the regex tail `([^)]+\.(png|jpg|jpeg|gif|webp))\)` at `s` (the
characters following `](`), returning the capture and the rest of the input
after the match. -/
def tailMatch (s : List Char) : Option (List Char × List Char) :=
  let run := s.takeWhile (fun c => c != ')')
  match s.drop run.length with
  | ')' :: rest => if validCapture run then some (run, rest) else none
  | _ => none

/-- Attempt `\]\(` at the current position (head `c`, tail `s`) followed by
the regex tail. -/
def closeAt (c : Char) (s : List Char) : Option (List Char × List Char) :=
  match c, s with
  | ']', '(' :: s2 => tailMatch s2
  | _, _ => none

/-- Lazy search for `\]\(` followed by a successful tail match, starting from
the characters after `![`; the characters skipped over are consumed by the
lazy `.*?` and must therefore be `.`-matchable.  On a failed tail attempt the
`]` is consumed by `.*?` (it is not a line terminator) and the search
continues one character further. -/
def findClose : List Char → Option (List Char × List Char)
  | [] => none
  | c :: s =>
    match closeAt c s with
    | some r => some r
    | none => if isDotChar c then findClose s else none

/-- Attempt a whole-pattern match at the current position: `!` then `[` then
the lazy search for the closing `](`-plus-tail. -/
def startAt (c : Char) (s : List Char) : Option (List Char × List Char) :=
  match c, s with
  | '!', '[' :: s2 => findClose s2
  | _, _ => none

/-- Global (`g`-flag) scan: repeatedly find the leftmost match starting at or
after the end of the previous match, collecting the capture groups in order.
`fuel` bounds the recursion; `fuel = cs.length` is always sufficient. -/
def scanAux : Nat → List Char → List String
  | 0, _ => []
  | _ + 1, [] => []
  | fuel + 1, c :: s =>
    match startAt c s with
    | some (cap, rest) => String.mk cap :: scanAux fuel rest
    | none => scanAux fuel s

/-- The `usedImages` collection of src/convert.ts lines 266-274: the list of
capture-group strings produced by scanning the final Markdown with the
unused-image regex (the source stores them in a `Set`; membership in the list
coincides with membership in the set). -/
def usedImages (md : String) : List String :=
  scanAux md.data.length md.data

/-! ## Data model -/

/-- Entries of the `savedImages` array (src/convert.ts lines 47-51). -/
structure SavedImage where
  pageNumber : Nat
  imageIndex : Nat
  filename : String
  deriving DecidableEq, Repr

/-- Entries of the `pageContents` array (src/convert.ts lines 53-58).
`imageBase64` abstracts the base64-encoded payload. -/
structure PageContent where
  pageNumber : Nat
  text : String
  imageBase64 : Option String
  imageFilenames : List String
  deriving DecidableEq, Repr

/-- `ConvertResult` (src/convert.ts lines 14-18). -/
structure ConvertResult where
  outputPath : String
  imagesSaved : Nat
  imagesDeleted : Nat
  deriving DecidableEq, Repr

/-- The saved-image filename `image_${globalImageIndex + 1}.${extension}`
(src/convert.ts lines 86 and 133). -/
def mkImageFilename (n : Nat) (ext : String) : String :=
  "image_" ++ Nat.repr n ++ "." ++ ext

/-! ## PDF extraction

The PDF parsing collaborator returns three page-aligned arrays.  A screenshot
or text page entry is `none` when the corresponding object or its payload is
absent; an image-page entry is `none` when `pageImages && pageImages.images`
is falsy, and an individual image is `none` when `image && image.data` is
falsy (the payloads themselves are abstracted). -/

structure PdfData where
  screenshotPages : List (Option String)
  textPages : List (Option String)
  imagePages : List (Option (List (Option Nat)))
  deriving Repr

/-- Inner loop of PDF image extraction (src/convert.ts lines 79-97): walk the
images of one page, saving each image that has data under the next global
index and recording its per-page index. -/
def pdfImagesAux (pageNumber : Nat) : List (Option Nat) → Nat → Nat → List SavedImage
  | [], _, _ => []
  | some _ :: rest, g, imageIndex =>
    { pageNumber := pageNumber, imageIndex := imageIndex,
      filename := mkImageFilename (g + 1) "png" } :: pdfImagesAux pageNumber rest (g + 1) (imageIndex + 1)
  | none :: rest, g, imageIndex => pdfImagesAux pageNumber rest g (imageIndex + 1)

/-- Outer loop of PDF image extraction (src/convert.ts lines 76-98): walk the
pages, threading the single global image counter across pages. -/
def pdfPagesAux : List (Option (List (Option Nat))) → Nat → Nat → List SavedImage
  | [], _, _ => []
  | p :: rest, pageIndex, g =>
    let here := match p with
                | some imgs => pdfImagesAux (pageIndex + 1) imgs g 0
                | none => []
    here ++ pdfPagesAux rest (pageIndex + 1) (g + here.length)

/-- The `savedImages` array after the PDF branch (src/convert.ts lines 74-98). -/
def pdfSavedImages (imagePages : List (Option (List (Option Nat)))) : List SavedImage :=
  pdfPagesAux imagePages 0 0

/-- The `pageContents` array after the PDF branch (src/convert.ts lines
102-115): one entry per screenshot page, zipping text, screenshot and the
saved images whose `pageNumber` matches. -/
def pdfPageContents (pdf : PdfData) : List PageContent :=
  (List.range pdf.screenshotPages.length).map (fun i =>
    { pageNumber := i + 1,
      text := (pdf.textPages.getD i none).getD "",
      imageBase64 := pdf.screenshotPages.getD i none,
      imageFilenames :=
        ((pdfSavedImages pdf.imagePages).filter (fun img => img.pageNumber == i + 1)).map
          (fun img => img.filename) })

/-! ## DOCX extraction

The DOCX collaborator invokes the image hook once per embedded image, in
document order, passing the declared content type; the hook derives the
extension, saves the file under the next global index and records the entry
(src/convert.ts lines 124-145).  The raw text and the HTML rendering are
abstracted as inputs. -/

/-- `image.contentType.split("/")[1] || "png"` (src/convert.ts line 132):
the part after the first `/`, up to the next `/`; `"png"` when there is no
`/` or the part is empty. -/
def extFromContentType (ct : String) : String :=
  let afterSlash := (ct.data.dropWhile (fun c => c != '/')).drop 1
  let second := afterSlash.takeWhile (fun c => c != '/')
  if second.isEmpty then "png" else String.mk second

/-- The `savedImages` entries produced by the DOCX image hook, one per
embedded image content type, threading the global counter (which also serves
as the recorded `imageIndex`, src/convert.ts line 138). -/
def docxAux : List String → Nat → List SavedImage
  | [], _ => []
  | ct :: rest, g =>
    { pageNumber := 1, imageIndex := g,
      filename := mkImageFilename (g + 1) (extFromContentType ct) } :: docxAux rest (g + 1)

/-- The `savedImages` array after the DOCX branch (src/convert.ts lines 124-153). -/
def docxSavedImages (contentTypes : List String) : List SavedImage :=
  docxAux contentTypes 0

/-- The `pageContents` array after the DOCX branch (src/convert.ts lines
155-160): a single synthetic page carrying the labelled HTML and raw text and
the filenames of all saved images. -/
def docxPageContents (contentTypes : List String) (htmlWithImages rawText : String) :
    List PageContent :=
  [{ pageNumber := 1,
     text := "HTML Content:\n" ++ htmlWithImages ++ "\n\nRaw Text:\n" ++ rawText,
     imageBase64 := none,
     imageFilenames := (docxSavedImages contentTypes).map (fun img => img.filename) }]

/-- The `pageContents` array after the bare-image branch (src/convert.ts lines
175-180): a single page whose `imageBase64` is the input file's own bytes. -/
def imagePageContents (imageBase64 : String) : List PageContent :=
  [{ pageNumber := 1, text := "", imageBase64 := some imageBase64, imageFilenames := [] }]

/-! ## Instruction selection (src/convert.ts lines 186-199) -/

/-- The OCR instruction for bare-image inputs (src/convert.ts line 191). -/
def imageInstruction : String :=
  "Extract all text content from the following image and convert it to a well-formatted Markdown document. Accurately capture all text, preserving structure including headings, lists, tables, and any formatting visible in the image. If the image contains diagrams, charts, or non-text elements, describe them briefly. Output ONLY the markdown content, no explanations."

/-- The DOCX instruction (src/convert.ts line 194). -/
def docxInstruction : String :=
  "Convert the following DOCX document content to a well-formatted Markdown document. I will provide the extracted HTML and raw text content. Convert this to clean Markdown, preserving the structure including headings, lists, tables, and any special formatting. I have also extracted embedded images from the document and saved them as separate files. Include images in the markdown using the format ![alt text](filename). Output ONLY the markdown content, no explanations."

/-- The PDF instruction for `respectPages = true` (src/convert.ts line 197). -/
def pdfRespectPagesInstruction : String :=
  "Convert the following PDF pages to a well-formatted Markdown document. For each page, I will provide the extracted text and a screenshot image. Use the screenshot to understand the visual layout, tables, and formatting. I have also extracted embedded images from the PDF and saved them as separate files. If you see references to images in the text or screenshots, include them in the markdown using the format ![alt text](filename). Preserve the structure including headings, lists, tables, and any special formatting. Output ONLY the markdown content, no explanations."

/-- The PDF instruction for `respectPages = false` (src/convert.ts line 198). -/
def pdfMergeInstruction : String :=
  "Convert the following PDF pages to a well-formatted Markdown document. Do NOT treat each page as a separate section: ignore repeated headers and footers that appear on every page and merge content into a single continuous document. Use the screenshots to understand visual layout, tables, and formatting. I have also extracted embedded images from the PDF and saved them as separate files. If you see references to images in the text or screenshots, include them in the markdown using the format ![alt text](filename). Do NOT insert horizontal rules (---) between pages. Preserve structure including headings, lists, tables, and any special formatting. Output ONLY the markdown content, no explanations."

/-- `initialInstruction` selection (src/convert.ts lines 186-199), keyed by the
lower-cased file extension and the `respectPages` flag. -/
def initialInstruction (fileExtension : String) (respectPages : Bool) : String :=
  if imageExtensions.contains fileExtension then imageInstruction
  else if fileExtension == ".docx" then docxInstruction
  else if respectPages then pdfRespectPagesInstruction
  else pdfMergeInstruction

/-! ## Image Reconciler (src/convert.ts lines 262-294)

The output directory is modelled as the finite set of filenames present in it;
`unlinkOk` tells, per filename, whether `unlinkSync` succeeds or throws (the
`catch` swallows the failure). -/

/-- One iteration of the cleanup loop (src/convert.ts lines 277-288): when the
file exists and its filename is not in the used set, attempt deletion; a
successful deletion removes the file and increments the counter, a failed one
is ignored. -/
def reconcileStep (used : List String) (unlinkOk : String → Bool)
    (st : Finset String × Nat) (img : SavedImage) : Finset String × Nat :=
  if img.filename ∈ st.1 ∧ img.filename ∉ used then
    if unlinkOk img.filename then (st.1.erase img.filename, st.2 + 1) else st
  else st

/-- The whole cleanup loop (src/convert.ts lines 264-288): fold over the saved
images, starting from the files `fs` present in the output directory and a
zero deletion counter. -/
def reconcileRun (md : String) (saved : List SavedImage) (fs : Finset String)
    (unlinkOk : String → Bool) : Finset String × Nat :=
  saved.foldl (reconcileStep (usedImages md) unlinkOk) (fs, 0)

/-! ## The `convert` pipeline -/

/-- The error cases thrown by `convert` itself (src/convert.ts lines 28 and 38). -/
inductive ConvertError where
  | fileNotFound : String → ConvertError
  | unsupportedFileType : String → ConvertError
  deriving DecidableEq, Repr

/-- Observable file-system actions of a `convert` run, in program order. -/
inductive Event where
  | existsCheck : String → Event
  | readContent : String → Event
  | writeImageFile : String → Event
  | writeOutputFile : String → Event
  | deleteImageFile : String → Event
  deriving DecidableEq, Repr

/-- Whether an event writes a file. -/
def Event.isWrite : Event → Bool
  | .writeImageFile _ => true
  | .writeOutputFile _ => true
  | _ => false

/-- The inputs of one `convert` run, with the external collaborators
abstracted by their outputs: `fileExists` is the answer of the `existsSync`
probe, `pdf` the three page-aligned arrays of the PDF parser,
`docxContentTypes` the declared content types of the embedded DOCX images in
document order, `markdown` the concatenated streamed model response, and
`unlinkOk` the per-filename success of `unlinkSync`. -/
structure ConvertInput where
  inputFilePath : String
  outputPath : String
  respectPages : Bool
  fileExists : Bool
  pdf : PdfData
  docxContentTypes : List String
  markdown : String
  unlinkOk : String → Bool

/-- The `savedImages` array of a run with a supported extension. -/
def savedImagesOf (inp : ConvertInput) : List SavedImage :=
  let ext := extnameLower inp.inputFilePath
  if ext == ".pdf" then pdfSavedImages inp.pdf.imagePages
  else if ext == ".docx" then docxSavedImages inp.docxContentTypes
  else []

/-- Shallow embedding of `convert` (src/convert.ts lines 20-295): the ordered
event trace of its file-system actions together with its outcome.  The run
checks existence, reads the input content, dispatches on the lower-cased
extension, writes the extracted images in order, writes the Markdown output,
and then runs the Image Reconciler over the files it has written. -/
def convertModel (inp : ConvertInput) : List Event × Except ConvertError ConvertResult :=
  let e0 := [Event.existsCheck inp.inputFilePath]
  if !inp.fileExists then
    (e0, .error (.fileNotFound inp.inputFilePath))
  else
    let e1 := e0 ++ [Event.readContent inp.inputFilePath]
    let ext := extnameLower inp.inputFilePath
    if !supportedExtensions.contains ext then
      (e1, .error (.unsupportedFileType ext))
    else
      let saved := savedImagesOf inp
      let e2 := e1 ++ saved.map (fun img => Event.writeImageFile img.filename)
      let e3 := e2 ++ [Event.writeOutputFile inp.outputPath]
      let fs0 := (saved.map (fun img => img.filename)).toFinset
      let fs1 := (reconcileRun inp.markdown saved fs0 inp.unlinkOk).1
      let e4 := e3 ++ ((saved.map (fun img => img.filename)).filter
        (fun f => f ∉ fs1)).map (fun f => Event.deleteImageFile f)
      (e4, .ok { outputPath := inp.outputPath,
                 imagesSaved := saved.length,
                 imagesDeleted := (reconcileRun inp.markdown saved fs0 inp.unlinkOk).2 })

/-! ## Spec-side predicate for claim C1 -/

/-- Modelled from the spec: the filename appears inside `![...](...)` Markdown
image syntax in the text — there is an occurrence of
`![` alt `](` filename `)` whose alt text is line-break free and whose
filename is a well-formed image reference target (no closing parenthesis, a
listed extension case-insensitively, a non-empty stem), irrespective of what
surrounds that occurrence. -/
def appearsInImageSyntax (md fname : String) : Prop :=
  validCapture fname.data = true ∧
  ∃ pre alt post : String,
    (∀ c ∈ alt.data, isDotChar c = true) ∧
    md = pre ++ "![" ++ alt ++ "](" ++ fname ++ ")" ++ post

/-! ## Auxiliary definitions used by the proofs -/

/-- Decimal value of a digit string, most significant first. -/
def digitsVal (cs : List Char) : Nat :=
  cs.foldl (fun a c => a * 10 + (c.toNat - 48)) 0

/-- `decimalShift a n` is `a` shifted left by the decimal digits of `n` with
`n` added, mirroring the digit emission order of `Nat.toDigitsCore`. -/
def decimalShift (a : Nat) (n : Nat) : Nat :=
  if h : n / 10 = 0 then a * 10 + n % 10
  else decimalShift a (n / 10) * 10 + n % 10
termination_by n
decreasing_by exact Nat.div_lt_self (by omega) (by omega)

/-- Number of images with data on one parsed PDF page. -/
def pageImageCount : Option (List (Option Nat)) → Nat
  | none => 0
  | some imgs => (imgs.filter Option.isSome).length

/-- Total number of images with data on the first `i` parsed PDF pages. -/
def imagesBefore (pages : List (Option (List (Option Nat)))) (i : Nat) : Nat :=
  ((pages.take i).map pageImageCount).sum

/-- Total number of images with data of a parsed PDF. -/
def pdfImageCount (pages : List (Option (List (Option Nat)))) : Nat :=
  (pages.map pageImageCount).sum

/-- A run on a `.txt` input file that exists: used to exhibit the behaviour of
the extension dispatch on an unsupported extension. -/
def sampleTxtInput : ConvertInput :=
  { inputFilePath := "input.txt", outputPath := "out.md", respectPages := false,
    fileExists := true, pdf := ⟨[], [], []⟩, docxContentTypes := [],
    markdown := "", unlinkOk := fun _ => true }

/-- A run on a two-page PDF with one embedded image per page whose model
response references only the first image. -/
def samplePdfInput : ConvertInput :=
  { inputFilePath := "doc.pdf", outputPath := "out.md", respectPages := false,
    fileExists := true,
    pdf := { screenshotPages := [some "s1", some "s2"],
             textPages := [some "t", none],
             imagePages := [some [some 0], some [some 1]] },
    docxContentTypes := [],
    markdown := "keep ![a](image_1.png) here", unlinkOk := fun _ => true }

/-! ## Lemmas about the Image Reconciler -/

theorem reconcileStep_fst_subset (used : List String) (ok : String → Bool)
    (st : Finset String × Nat) (img : SavedImage) :
    (reconcileStep used ok st img).1 ⊆ st.1 := by
  unfold reconcileStep
  split
  · split
    · exact Finset.erase_subset _ _
    · exact Finset.Subset.refl _
  · exact Finset.Subset.refl _

theorem reconcileFold_fst_subset (used : List String) (ok : String → Bool) :
    ∀ (l : List SavedImage) (st : Finset String × Nat),
      (l.foldl (reconcileStep used ok) st).1 ⊆ st.1 := by
  intro l
  induction l with
  | nil => intro st; exact Finset.Subset.refl _
  | cons img rest ih =>
    intro st
    simpa using (ih (reconcileStep used ok st img)).trans
      (reconcileStep_fst_subset used ok st img)

theorem reconcileFold_notMem (used : List String) (ok : String → Bool)
    (l : List SavedImage) (st : Finset String × Nat) (f : String) (h : f ∉ st.1) :
    f ∉ (l.foldl (reconcileStep used ok) st).1 :=
  fun hmem => h (reconcileFold_fst_subset used ok l st hmem)

theorem reconcileFold_keep (used : List String) (ok : String → Bool)
    (f : String) (hf : f ∈ used) :
    ∀ (l : List SavedImage) (st : Finset String × Nat),
      f ∈ st.1 → f ∈ (l.foldl (reconcileStep used ok) st).1 := by
  intro l
  induction l with
  | nil => intro st h; exact h
  | cons img rest ih =>
    intro st h
    simp only [List.foldl_cons]
    apply ih
    unfold reconcileStep
    split
    next hc =>
      split
      · exact Finset.mem_erase.mpr ⟨fun he => hc.2 (he ▸ hf), h⟩
      · exact h
    next => exact h

theorem reconcileFold_delete (used : List String) (ok : String → Bool)
    (f : String) (hused : f ∉ used) (hok : ok f = true) :
    ∀ (l : List SavedImage) (st : Finset String × Nat),
      (∃ img ∈ l, img.filename = f) → f ∉ (l.foldl (reconcileStep used ok) st).1 := by
  intro l
  induction l with
  | nil => rintro st ⟨img, h, _⟩; exact absurd h (List.not_mem_nil img)
  | cons a rest ih =>
    rintro st ⟨img, hmem, hname⟩
    rcases List.mem_cons.mp hmem with heq | htail
    · subst heq
      by_cases hst : img.filename ∈ st.1
      · have hstep : (reconcileStep used ok st img).1 = st.1.erase img.filename := by
          unfold reconcileStep
          rw [if_pos ⟨hst, hname ▸ hused⟩, if_pos (hname ▸ hok)]
        simp only [List.foldl_cons]
        apply reconcileFold_notMem
        rw [hstep, hname]
        exact Finset.not_mem_erase f st.1
      · simp only [List.foldl_cons]
        apply reconcileFold_notMem
        intro hmem'
        exact hst (hname ▸ reconcileStep_fst_subset used ok st img hmem')
    · exact ih (reconcileStep used ok st a) ⟨img, htail, hname⟩

theorem reconcileFold_stable (used : List String) (ok : String → Bool) :
    ∀ (l : List SavedImage) (st : Finset String × Nat) (img : SavedImage),
      img ∈ l → img.filename ∈ (l.foldl (reconcileStep used ok) st).1 →
      img.filename ∈ used ∨ ok img.filename = false := by
  intro l
  induction l with
  | nil => intro st img h; exact absurd h (List.not_mem_nil img)
  | cons a rest ih =>
    intro st img hmem hfin
    rcases List.mem_cons.mp hmem with heq | htail
    · subst heq
      by_cases hu : img.filename ∈ used
      · exact Or.inl hu
      by_cases hk : ok img.filename = true
      · exfalso
        by_cases hst : img.filename ∈ st.1
        · have hstep : (reconcileStep used ok st img).1 = st.1.erase img.filename := by
            unfold reconcileStep
            rw [if_pos ⟨hst, hu⟩, if_pos hk]
          refine reconcileFold_notMem used ok rest _ img.filename ?_ (by simpa using hfin)
          rw [hstep]
          exact Finset.not_mem_erase _ _
        · refine reconcileFold_notMem used ok rest _ img.filename
            (fun hmem' => hst (reconcileStep_fst_subset used ok st img hmem'))
            (by simpa using hfin)
      · exact Or.inr (Bool.not_eq_true _ ▸ hk)
    · exact ih (reconcileStep used ok st a) img htail (by simpa using hfin)

theorem reconcileStep_fail (used : List String) (ok : String → Bool)
    (st : Finset String × Nat) (img : SavedImage) (h : ok img.filename = false) :
    reconcileStep used ok st img = st := by
  unfold reconcileStep
  split
  · rw [h]; simp
  · rfl

theorem reconcileFold_count_eq (used : List String) (ok : String → Bool) :
    ∀ (l : List SavedImage) (st : Finset String × Nat),
      (∀ img ∈ l, img.filename ∈ st.1 → img.filename ∈ used ∨ ok img.filename = false) →
      l.foldl (reconcileStep used ok) st = st := by
  intro l
  induction l with
  | nil => intro st _; rfl
  | cons a rest ih =>
    intro st h
    have hstep : reconcileStep used ok st a = st := by
      by_cases hst : a.filename ∈ st.1
      · rcases h a (List.mem_cons_self a rest) hst with hu | hk
        · unfold reconcileStep
          rw [if_neg (fun hc => hc.2 hu)]
        · exact reconcileStep_fail used ok st a hk
      · unfold reconcileStep
        rw [if_neg (fun hc => hst hc.1)]
    simp only [List.foldl_cons, hstep]
    exact ih st (fun img hmem => h img (List.mem_cons_of_mem a hmem))

theorem reconcileFold_card (used : List String) (ok : String → Bool) :
    ∀ (l : List SavedImage) (st : Finset String × Nat),
      (l.foldl (reconcileStep used ok) st).2 + (l.foldl (reconcileStep used ok) st).1.card =
        st.2 + st.1.card := by
  intro l
  induction l with
  | nil => intro st; rfl
  | cons a rest ih =>
    intro st
    simp only [List.foldl_cons]
    rw [ih (reconcileStep used ok st a)]
    unfold reconcileStep
    split
    next hc =>
      split
      · have hpos : 0 < st.1.card := Finset.card_pos.mpr ⟨a.filename, hc.1⟩
        rw [Finset.card_erase_of_mem hc.1]
        omega
      · rfl
    next => rfl

theorem reconcileFold_count_le (used : List String) (ok : String → Bool) :
    ∀ (l : List SavedImage) (st : Finset String × Nat),
      (l.foldl (reconcileStep used ok) st).2 ≤ st.2 + l.length := by
  intro l
  induction l with
  | nil => intro st; simp
  | cons a rest ih =>
    intro st
    simp only [List.foldl_cons, List.length_cons]
    refine (ih (reconcileStep used ok st a)).trans ?_
    have : (reconcileStep used ok st a).2 ≤ st.2 + 1 := by
      unfold reconcileStep
      split
      · split
        · exact Nat.le_refl _
        · exact Nat.le_succ _
      · exact Nat.le_succ _
    omega

/-! ## Lemmas about the regex scan -/

theorem tailMatch_valid {s cap rest : List Char} (h : tailMatch s = some (cap, rest)) :
    validCapture cap = true := by
  simp only [tailMatch] at h
  split at h
  · split at h
    · cases h; assumption
    · exact absurd h (by simp)
  · exact absurd h (by simp)

theorem closeAt_valid {c : Char} {s cap rest : List Char}
    (h : closeAt c s = some (cap, rest)) : validCapture cap = true := by
  unfold closeAt at h
  split at h
  · exact tailMatch_valid h
  · exact absurd h (by simp)

theorem findClose_valid : ∀ {s cap rest : List Char},
    findClose s = some (cap, rest) → validCapture cap = true := by
  intro s
  induction s with
  | nil => intro cap rest h; simp [findClose] at h
  | cons c s ih =>
    intro cap rest h
    unfold findClose at h
    split at h
    next r hr => exact closeAt_valid (hr.trans h)
    next =>
      split at h
      · exact ih h
      · exact absurd h (by simp)

theorem startAt_valid {c : Char} {s cap rest : List Char}
    (h : startAt c s = some (cap, rest)) : validCapture cap = true := by
  unfold startAt at h
  split at h
  · exact findClose_valid h
  · exact absurd h (by simp)

theorem scanAux_valid : ∀ (fuel : Nat) (cs : List Char) (cap : String),
    cap ∈ scanAux fuel cs → validCapture cap.data = true := by
  intro fuel
  induction fuel with
  | zero => intro cs cap h; simp [scanAux] at h
  | succ fuel ih =>
    intro cs cap h
    match cs with
    | [] => simp [scanAux] at h
    | c :: s =>
      unfold scanAux at h
      split at h
      next cap' rest hm =>
        rcases List.mem_cons.mp h with heq | htail
        · subst heq; exact startAt_valid hm
        · exact ih rest cap htail
      next => exact ih s cap h

theorem usedImages_valid (md : String) (cap : String) (h : cap ∈ usedImages md) :
    validCapture cap.data = true :=
  scanAux_valid md.data.length md.data cap h

/-! ## Decimal rendering of the global image counter -/

theorem digitChar_toNat : ∀ k, k < 10 → (Nat.digitChar k).toNat = 48 + k := by decide

theorem digitChar_isDigit : ∀ k, k < 10 → (Nat.digitChar k).isDigit = true := by decide

theorem toDigitsCore_foldl :
    ∀ (fuel n : Nat), n < fuel → ∀ (ds : List Char) (a : Nat),
      (Nat.toDigitsCore 10 fuel n ds).foldl (fun a c => a * 10 + (c.toNat - 48)) a =
        ds.foldl (fun a c => a * 10 + (c.toNat - 48)) (decimalShift a n) := by
  intro fuel
  induction fuel with
  | zero => intro n h; omega
  | succ fuel ih =>
    intro n h ds a
    have hmod : n % 10 < 10 := Nat.mod_lt _ (by omega)
    by_cases hdiv : n / 10 = 0
    · simp only [Nat.toDigitsCore, hdiv, if_pos, List.foldl_cons]
      rw [decimalShift, dif_pos hdiv, digitChar_toNat _ hmod]
      congr 1
      omega
    · have hge : 10 ≤ n := by omega
      have hlt : n / 10 < fuel := by omega
      simp only [Nat.toDigitsCore, hdiv, if_neg, ite_false]
      rw [ih (n / 10) hlt, List.foldl_cons, digitChar_toNat _ hmod]
      conv_rhs => rw [decimalShift, dif_neg hdiv]
      congr 1
      omega

theorem decimalShift_zero : ∀ n, decimalShift 0 n = n := by
  intro n
  induction n using Nat.strong_induction_on with
  | _ n ih =>
    by_cases hdiv : n / 10 = 0
    · rw [decimalShift, dif_pos hdiv]; omega
    · rw [decimalShift, dif_neg hdiv, ih (n / 10) (Nat.div_lt_self (by omega) (by omega))]
      omega

theorem digitsVal_repr (n : Nat) : digitsVal (Nat.repr n).data = n := by
  show ((Nat.toDigits 10 n).asString.data).foldl _ 0 = n
  have : (Nat.toDigits 10 n).asString.data = Nat.toDigits 10 n := rfl
  rw [this]
  unfold Nat.toDigits
  rw [toDigitsCore_foldl (n + 1) n (Nat.lt_succ_self n) [] 0]
  exact decimalShift_zero n

theorem repr_data_inj {m n : Nat} (h : (Nat.repr m).data = (Nat.repr n).data) : m = n := by
  have := digitsVal_repr m
  rw [h, digitsVal_repr n] at this
  omega

theorem toDigitsCore_digits :
    ∀ (fuel n : Nat) (ds : List Char), (∀ c ∈ ds, c.isDigit = true) →
      ∀ c ∈ Nat.toDigitsCore 10 fuel n ds, c.isDigit = true := by
  intro fuel
  induction fuel with
  | zero => intro n ds h; exact h
  | succ fuel ih =>
    intro n ds h c hc
    have hmod : n % 10 < 10 := Nat.mod_lt _ (by omega)
    by_cases hdiv : n / 10 = 0
    · simp only [Nat.toDigitsCore, hdiv, if_pos] at hc
      rcases List.mem_cons.mp hc with heq | htail
      · exact heq ▸ digitChar_isDigit _ hmod
      · exact h c htail
    · simp only [Nat.toDigitsCore, hdiv, if_neg, ite_false] at hc
      refine ih (n / 10) (Nat.digitChar (n % 10) :: ds) ?_ c hc
      intro c' hc'
      rcases List.mem_cons.mp hc' with heq | htail
      · exact heq ▸ digitChar_isDigit _ hmod
      · exact h c' htail

theorem repr_all_digits (n : Nat) : ∀ c ∈ (Nat.repr n).data, c.isDigit = true := by
  intro c hc
  exact toDigitsCore_digits (n + 1) n [] (by simp) c hc

theorem digits_dot_split :
    ∀ (xs : List Char), (∀ c ∈ xs, c.isDigit = true) →
      ∀ (ys : List Char), (∀ c ∈ ys, c.isDigit = true) →
      ∀ (u v : List Char), xs ++ '.' :: u = ys ++ '.' :: v → xs = ys ∧ u = v := by
  intro xs
  induction xs with
  | nil =>
    intro _ ys hys u v h
    match ys with
    | [] => exact ⟨rfl, List.cons.inj h |>.2⟩
    | c :: ys' =>
      exfalso
      have : c = '.' := (List.cons.inj h.symm).1
      have := hys c (List.mem_cons_self c ys')
      rw [this] at *
      simp_all
  | cons x xs' ih =>
    intro hxs ys hys u v h
    match ys with
    | [] =>
      exfalso
      have : x = '.' := (List.cons.inj h).1
      have := hxs x (List.mem_cons_self x xs')
      rw [this] at *
      simp_all
    | c :: ys' =>
      obtain ⟨hhead, htail⟩ := List.cons.inj h
      obtain ⟨h1, h2⟩ := ih (fun c hc => hxs c (List.mem_cons_of_mem x hc)) ys'
        (fun c hc => hys c (List.mem_cons_of_mem _ hc)) u v htail
      exact ⟨by rw [hhead, h1], h2⟩

theorem mkImageFilename_inj {m n : Nat} {e e' : String}
    (h : mkImageFilename m e = mkImageFilename n e') : m = n := by
  have hdata : ("image_" ++ Nat.repr m ++ "." ++ e).data =
      ("image_" ++ Nat.repr n ++ "." ++ e').data := congrArg String.data h
  simp only [String.data_append] at hdata
  have hdata' : (Nat.repr m).data ++ '.' :: e.data = (Nat.repr n).data ++ '.' :: e'.data := by
    simpa [List.append_assoc] using hdata
  exact repr_data_inj (digits_dot_split _ (repr_all_digits m) _ (repr_all_digits n) _ _ hdata').1

/-! ## Lemmas about image extraction -/

theorem range_map_append {α : Type} (a b : Nat) (f : Nat → α) :
    (List.range (a + b)).map f
      = (List.range a).map f ++ (List.range b).map (fun i => f (a + i)) := by
  rw [List.range_add, List.map_append, List.map_map]
  rfl

theorem pdfImagesAux_pageNumber (pn : Nat) :
    ∀ (imgs : List (Option Nat)) (g k : Nat) (e : SavedImage),
      e ∈ pdfImagesAux pn imgs g k → e.pageNumber = pn := by
  intro imgs
  induction imgs with
  | nil => intro g k e h; simp [pdfImagesAux] at h
  | cons o rest ih =>
    intro g k e h
    match o with
    | some x =>
      rcases List.mem_cons.mp h with heq | htail
      · rw [heq]
      · exact ih (g + 1) (k + 1) e htail
    | none => exact ih g (k + 1) e h

theorem pdfImagesAux_length (pn : Nat) :
    ∀ (imgs : List (Option Nat)) (g k : Nat),
      (pdfImagesAux pn imgs g k).length = (imgs.filter Option.isSome).length := by
  intro imgs
  induction imgs with
  | nil => intro g k; rfl
  | cons o rest ih =>
    intro g k
    match o with
    | some x => simp [pdfImagesAux, List.filter_cons, Option.isSome, ih (g + 1) (k + 1)]
    | none => simp [pdfImagesAux, List.filter_cons, Option.isSome, ih g (k + 1)]

theorem pdfImagesAux_filenames (pn : Nat) :
    ∀ (imgs : List (Option Nat)) (g k : Nat),
      (pdfImagesAux pn imgs g k).map (fun e => e.filename)
        = (List.range (imgs.filter Option.isSome).length).map
            (fun i => mkImageFilename (g + i + 1) "png") := by
  intro imgs
  induction imgs with
  | nil => intro g k; rfl
  | cons o rest ih =>
    intro g k
    match o with
    | some x =>
      have hfilter : (some x :: rest).filter Option.isSome
          = some x :: rest.filter Option.isSome := by
        simp [List.filter_cons]
      rw [hfilter]
      simp only [pdfImagesAux, List.map_cons, List.length_cons, List.range_succ_eq_map,
        List.map_cons, List.map_map, ih (g + 1) (k + 1)]
      congr 1
      · have hfun : (fun i => mkImageFilename (g + 1 + i + 1) "png")
            = (fun i => mkImageFilename (g + i + 1) "png") ∘ Nat.succ := by
          funext i
          show mkImageFilename (g + 1 + i + 1) "png" = mkImageFilename (g + (i + 1) + 1) "png"
          congr 1
          omega
        rw [hfun]
    | none =>
      have hfilter : ((none : Option Nat) :: rest).filter Option.isSome
          = rest.filter Option.isSome := by
        simp [List.filter_cons]
      rw [hfilter]
      show (pdfImagesAux pn rest g (k + 1)).map (fun e => e.filename) = _
      exact ih g (k + 1)

theorem pdfPagesAux_filenames :
    ∀ (pages : List (Option (List (Option Nat)))) (pi g : Nat),
      (pdfPagesAux pages pi g).map (fun e => e.filename)
        = (List.range (pdfImageCount pages)).map
            (fun i => mkImageFilename (g + i + 1) "png") := by
  intro pages
  induction pages with
  | nil => intro pi g; rfl
  | cons p rest ih =>
    intro pi g
    have hcount : pdfImageCount (p :: rest) = pageImageCount p + pdfImageCount rest := by
      simp [pdfImageCount]
    rw [hcount, range_map_append]
    match p with
    | some imgs =>
      simp only [pdfPagesAux, List.map_append,
        pdfImagesAux_filenames (pi + 1) imgs g 0, pdfImagesAux_length,
        ih (pi + 1), pageImageCount]
      congr 1
      have : (fun i => mkImageFilename
            (g + (imgs.filter Option.isSome).length + i + 1) "png")
          = fun i => mkImageFilename
            (g + ((imgs.filter Option.isSome).length + i) + 1) "png" := by
        funext i; congr 1; omega
      rw [this]
    | none =>
      simp only [pdfPagesAux, List.map_append, ih (pi + 1), pageImageCount]
      simp

theorem docxAux_length : ∀ (cts : List String) (g : Nat), (docxAux cts g).length = cts.length := by
  intro cts
  induction cts with
  | nil => intro g; rfl
  | cons ct rest ih => intro g; simp [docxAux, ih (g + 1)]

theorem docxAux_pageNumber :
    ∀ (cts : List String) (g : Nat) (e : SavedImage), e ∈ docxAux cts g → e.pageNumber = 1 := by
  intro cts
  induction cts with
  | nil => intro g e h; simp [docxAux] at h
  | cons ct rest ih =>
    intro g e h
    rcases List.mem_cons.mp h with heq | htail
    · rw [heq]
    · exact ih (g + 1) e htail

theorem docxAux_filenames :
    ∀ (cts : List String) (g : Nat),
      (docxAux cts g).map (fun e => e.filename)
        = (List.range cts.length).map
            (fun i => mkImageFilename (g + i + 1) (extFromContentType (cts.getD i ""))) := by
  intro cts
  induction cts with
  | nil => intro g; rfl
  | cons ct rest ih =>
    intro g
    simp only [docxAux, List.map_cons, ih (g + 1), List.length_cons,
      List.range_succ_eq_map, List.map_map]
    congr 1
    · have hfun : (fun i => mkImageFilename (g + 1 + i + 1)
          (extFromContentType (rest.getD i "")))
        = (fun i => mkImageFilename (g + i + 1)
            (extFromContentType ((ct :: rest).getD i ""))) ∘ Nat.succ := by
        funext i
        show mkImageFilename (g + 1 + i + 1) (extFromContentType (rest.getD i ""))
          = mkImageFilename (g + (i + 1) + 1) (extFromContentType ((ct :: rest).getD (i + 1) ""))
        have harith : g + 1 + i + 1 = g + (i + 1) + 1 := by omega
        rw [harith]
        rfl
      rw [hfun]

theorem pdfSaved_filenames_nodup (pages : List (Option (List (Option Nat)))) :
    ((pdfSavedImages pages).map (fun e => e.filename)).Nodup := by
  rw [pdfSavedImages, pdfPagesAux_filenames]
  refine List.Nodup.map ?_ (List.nodup_range _)
  intro i j h
  have := mkImageFilename_inj h
  omega

theorem docxSaved_filenames_nodup (cts : List String) :
    ((docxSavedImages cts).map (fun e => e.filename)).Nodup := by
  rw [docxSavedImages, docxAux_filenames]
  refine List.Nodup.map ?_ (List.nodup_range _)
  intro i j h
  have := mkImageFilename_inj h
  omega

theorem pdfPagesAux_mem_ge :
    ∀ (pages : List (Option (List (Option Nat)))) (pi g : Nat) (e : SavedImage),
      e ∈ pdfPagesAux pages pi g → pi + 1 ≤ e.pageNumber := by
  intro pages
  induction pages with
  | nil => intro pi g e h; simp [pdfPagesAux] at h
  | cons p rest ih =>
    intro pi g e h
    unfold pdfPagesAux at h
    rcases List.mem_append.mp h with hhere | htail
    · match p with
      | some imgs => exact (pdfImagesAux_pageNumber (pi + 1) imgs g 0 e hhere).ge
      | none => simp at hhere
    · have := ih (pi + 1) _ e htail
      omega

theorem pdfPagesAux_filter :
    ∀ (pages : List (Option (List (Option Nat)))) (i pi g : Nat),
      (pdfPagesAux pages pi g).filter (fun img => img.pageNumber == pi + i + 1)
        = pdfImagesAux (pi + i + 1) ((pages.getD i none).getD [])
            (g + imagesBefore pages i) 0 := by
  intro pages
  induction pages with
  | nil =>
    intro i pi g
    simp [pdfPagesAux, List.getD, pdfImagesAux]
  | cons p rest ih =>
    intro i pi g
    unfold pdfPagesAux
    rw [List.filter_append]
    match i with
    | 0 =>
      have hrest : ∀ g', (pdfPagesAux rest (pi + 1) g').filter
          (fun img => img.pageNumber == pi + 0 + 1) = [] := by
        intro g'
        rw [List.filter_eq_nil_iff]
        intro e he
        have := pdfPagesAux_mem_ge rest (pi + 1) g' e he
        simp only [beq_iff_eq]
        omega
      rw [hrest, List.append_nil]
      have hbef : imagesBefore (p :: rest) 0 = 0 := by simp [imagesBefore]
      rw [hbef, Nat.add_zero]
      match p with
      | some imgs =>
        have hall : (pdfImagesAux (pi + 1) imgs g 0).filter
            (fun img => img.pageNumber == pi + 0 + 1)
            = pdfImagesAux (pi + 1) imgs g 0 := by
          rw [List.filter_eq_self]
          intro e he
          have := pdfImagesAux_pageNumber (pi + 1) imgs g 0 e he
          simp only [beq_iff_eq]
          omega
        rw [hall]
        show pdfImagesAux (pi + 1) imgs g 0 = pdfImagesAux (pi + 0 + 1) imgs g 0
        congr 1
      | none =>
        show List.filter _ [] = pdfImagesAux (pi + 0 + 1) [] g 0
        rfl
    | i + 1 =>
      have hhere : ∀ (here : List SavedImage), (∀ e ∈ here, e.pageNumber = pi + 1) →
          here.filter (fun img => img.pageNumber == pi + (i + 1) + 1) = [] := by
        intro here hmem
        rw [List.filter_eq_nil_iff]
        intro e he
        have := hmem e he
        simp only [beq_iff_eq]
        omega
      have harith : pi + (i + 1) + 1 = (pi + 1) + i + 1 := by omega
      match p with
      | some imgs =>
        rw [hhere (pdfImagesAux (pi + 1) imgs g 0)
          (fun e he => pdfImagesAux_pageNumber (pi + 1) imgs g 0 e he), List.nil_append]
        rw [harith, ih i (pi + 1) (g + (pdfImagesAux (pi + 1) imgs g 0).length)]
        have hlen : (pdfImagesAux (pi + 1) imgs g 0).length
            = pageImageCount (some imgs) := pdfImagesAux_length (pi + 1) imgs g 0
        have hbef : imagesBefore (some imgs :: rest) (i + 1)
            = pageImageCount (some imgs) + imagesBefore rest i := by
          simp [imagesBefore, List.take, pageImageCount]
        rw [hlen, hbef]
        show pdfImagesAux ((pi + 1) + i + 1) ((rest.getD i none).getD [])
            (g + pageImageCount (some imgs) + imagesBefore rest i) 0
          = pdfImagesAux ((pi + 1) + i + 1) (((some imgs :: rest).getD (i + 1) none).getD [])
            (g + (pageImageCount (some imgs) + imagesBefore rest i)) 0
        rw [Nat.add_assoc g (pageImageCount (some imgs)) (imagesBefore rest i),
          List.getD_cons_succ]
      | none =>
        show List.filter _ ([] ++ pdfPagesAux rest (pi + 1) (g + List.length [])) = _
        rw [List.nil_append]
        have h0 : g + List.length ([] : List SavedImage) = g := rfl
        rw [h0, harith, ih i (pi + 1) g]
        have hbef : imagesBefore ((none : Option (List (Option Nat))) :: rest) (i + 1)
            = imagesBefore rest i := by
          simp [imagesBefore, List.take, pageImageCount]
        rw [hbef, List.getD_cons_succ]

theorem pdfPageContents_length (pdf : PdfData) :
    (pdfPageContents pdf).length = pdf.screenshotPages.length := by
  simp [pdfPageContents]

theorem pdfPageContents_pageNumbers (pdf : PdfData) :
    (pdfPageContents pdf).map (fun pc => pc.pageNumber)
      = List.range' 1 pdf.screenshotPages.length := by
  unfold pdfPageContents
  rw [List.map_map, List.range'_eq_map_range]
  refine List.map_congr_left ?_
  intro i _
  show i + 1 = 1 + i
  omega

theorem pdfPageContents_getElem_imageFilenames (pdf : PdfData) (i : Nat)
    (h : i < (pdfPageContents pdf).length) :
    ((pdfPageContents pdf)[i]).imageFilenames
      = (pdfImagesAux (i + 1) ((pdf.imagePages.getD i none).getD [])
          (imagesBefore pdf.imagePages i) 0).map (fun e => e.filename) := by
  have hi : i < pdf.screenshotPages.length := by
    simpa [pdfPageContents] using h
  unfold pdfPageContents
  rw [List.getElem_map, List.getElem_range]
  show ((pdfSavedImages pdf.imagePages).filter (fun img => img.pageNumber == i + 1)).map
      (fun img => img.filename) = _
  have := pdfPagesAux_filter pdf.imagePages i 0 0
  simp only [Nat.zero_add] at this
  rw [pdfSavedImages, this]

/-! ## Lemmas about the `convert` pipeline -/

theorem convertModel_ok (inp : ConvertInput)
    (hex : inp.fileExists = true)
    (hsupp : supportedExtensions.contains (extnameLower inp.inputFilePath) = true) :
    (convertModel inp).2 = Except.ok
      { outputPath := inp.outputPath,
        imagesSaved := (savedImagesOf inp).length,
        imagesDeleted := (reconcileRun inp.markdown (savedImagesOf inp)
          ((savedImagesOf inp).map (fun img => img.filename)).toFinset inp.unlinkOk).2 } := by
  simp only [convertModel, hex, hsupp, Bool.not_true, Bool.not_false]
  rfl

theorem convertModel_ok_inv (inp : ConvertInput) (r : ConvertResult)
    (h : (convertModel inp).2 = Except.ok r) :
    r.imagesSaved = (savedImagesOf inp).length ∧
    r.imagesDeleted = (reconcileRun inp.markdown (savedImagesOf inp)
      ((savedImagesOf inp).map (fun img => img.filename)).toFinset inp.unlinkOk).2 := by
  by_cases hex : inp.fileExists = true
  · by_cases hsupp : supportedExtensions.contains (extnameLower inp.inputFilePath) = true
    · rw [convertModel_ok inp hex hsupp] at h
      cases Except.ok.inj h
      exact ⟨rfl, rfl⟩
    · exfalso
      simp only [convertModel, hex, Bool.eq_false_iff.mpr hsupp, Bool.not_true,
        Bool.not_false] at h
      simp at h
  · exfalso
    simp only [convertModel, Bool.eq_false_iff.mpr hex, Bool.not_false] at h
    simp at h

/-! ## Claim theorems -/

/-- C1, counterexample: the claim as stated is false.  In the Markdown text
`![x ![a](image_1.png) y](other.png)` the filename `other.png` appears inside
`![...](...)` image syntax (as the target of the enclosing reference, whose
alt text itself contains an image reference), yet the Image Reconciler deletes
the saved file `other.png`: the global regex scan consumes the inner reference
`![x ![a](image_1.png)` first and never captures `other.png`. -/
theorem c1_counterexample :
    appearsInImageSyntax "![x ![a](image_1.png) y](other.png)" "other.png" ∧
    "other.png" ∈ ({"image_1.png", "other.png"} : Finset String) ∧
    "other.png" ∉ (reconcileRun "![x ![a](image_1.png) y](other.png)"
        [⟨1, 0, "image_1.png"⟩, ⟨1, 1, "other.png"⟩]
        {"image_1.png", "other.png"} (fun _ => true)).1 :=
  ⟨⟨by decide, "", "x ![a](image_1.png) y", "", by decide, by decide⟩, by decide, by decide⟩

/-- C1 (amended): with every saved file present and deletions succeeding, the
Image Reconciler never deletes a saved file whose filename is in the set of
filenames captured by the image-reference regex's left-to-right global scan,
and it deletes exactly the saved files whose filenames are absent from that
set (a reference nested inside the alt text of an enclosing reference is
captured instead of the enclosing reference's own target). -/
theorem c1_reconciler_exact (md : String) (saved : List SavedImage) (fs : Finset String)
    (hall : ∀ img ∈ saved, img.filename ∈ fs) :
    ∀ img ∈ saved,
      (img.filename ∈ (reconcileRun md saved fs (fun _ => true)).1 ↔
        img.filename ∈ usedImages md) := by
  intro img hmem
  constructor
  · intro hfin
    rcases reconcileFold_stable (usedImages md) (fun _ => true) saved (fs, 0) img hmem hfin
      with h | h
    · exact h
    · simp at h
  · intro hused
    exact reconcileFold_keep (usedImages md) (fun _ => true) img.filename hused saved (fs, 0)
      (hall img hmem)

/-- Witness for C1: on `![a](image_1.png)` with saved images `image_1.png`
and `image_2.png`, the first is kept and the second deleted. -/
theorem c1_reconciler_exact_witness :
    "image_1.png" ∈ (reconcileRun "![a](image_1.png)"
        [⟨1, 0, "image_1.png"⟩, ⟨1, 1, "image_2.png"⟩]
        {"image_1.png", "image_2.png"} (fun _ => true)).1 ∧
    "image_2.png" ∉ (reconcileRun "![a](image_1.png)"
        [⟨1, 0, "image_1.png"⟩, ⟨1, 1, "image_2.png"⟩]
        {"image_1.png", "image_2.png"} (fun _ => true)).1 := by
  constructor
  · exact (c1_reconciler_exact "![a](image_1.png)"
      [⟨1, 0, "image_1.png"⟩, ⟨1, 1, "image_2.png"⟩] {"image_1.png", "image_2.png"}
      (by decide) ⟨1, 0, "image_1.png"⟩ (by decide)).mpr (by decide)
  · intro hmem
    exact absurd ((c1_reconciler_exact "![a](image_1.png)"
      [⟨1, 0, "image_1.png"⟩, ⟨1, 1, "image_2.png"⟩] {"image_1.png", "image_2.png"}
      (by decide) ⟨1, 1, "image_2.png"⟩ (by decide)).mp hmem) (by decide)

/-- C6: the Image Reconciler is idempotent — re-running the cleanup loop on
the same Markdown and the file set left by a first run deletes nothing: the
second pass's deletion counter is zero (this holds for any per-file deletion
outcome, provided it is the same in both passes). -/
theorem c6_reconciler_idempotent (md : String) (saved : List SavedImage)
    (fs : Finset String) (unlinkOk : String → Bool) :
    (reconcileRun md saved (reconcileRun md saved fs unlinkOk).1 unlinkOk).2 = 0 := by
  have h := reconcileFold_count_eq (usedImages md) unlinkOk saved
    ((reconcileRun md saved fs unlinkOk).1, 0)
    (fun img hmem hfs =>
      reconcileFold_stable (usedImages md) unlinkOk saved (fs, 0) img hmem hfs)
  show (saved.foldl (reconcileStep (usedImages md) unlinkOk)
    ((reconcileRun md saved fs unlinkOk).1, 0)).2 = 0
  rw [h]

/-- C7: an individual deletion failure is non-fatal and not counted.  First
conjunct: over any cleanup run the deletion counter equals the number of files
actually removed from the output directory (counter plus remaining files =
initial files), so failed deletions are never counted.  Second conjunct: a
saved image whose deletion fails leaves the state untouched and the loop
proceeds to the remaining saved images exactly as it would from that state.
Third conjunct: a returned result's `imagesSaved` is the number of images
written during extraction. -/
theorem c7_deletion_failure_nonfatal (md : String) (saved : List SavedImage)
    (fs : Finset String) (unlinkOk : String → Bool) :
    ((reconcileRun md saved fs unlinkOk).2 + (reconcileRun md saved fs unlinkOk).1.card
        = fs.card) ∧
    (∀ (st : Finset String × Nat) (img : SavedImage) (rest : List SavedImage),
        unlinkOk img.filename = false →
        (img :: rest).foldl (reconcileStep (usedImages md) unlinkOk) st
          = rest.foldl (reconcileStep (usedImages md) unlinkOk) st) ∧
    (∀ (inp : ConvertInput) (r : ConvertResult), (convertModel inp).2 = Except.ok r →
        r.imagesSaved = (savedImagesOf inp).length) := by
  refine ⟨?_, ?_, ?_⟩
  · have h := reconcileFold_card (usedImages md) unlinkOk saved (fs, 0)
    simpa using h
  · intro st img rest hfail
    rw [List.foldl_cons, reconcileStep_fail _ _ _ _ hfail]
  · intro inp r h
    exact (convertModel_ok_inv inp r h).1

/-- Witness for C7 at a concrete run: the deletion of `image_2.png` fails, the
counter counts only `image_1.png`, and the loop equation holds. -/
theorem c7_deletion_failure_nonfatal_witness :
    ((reconcileRun "" [⟨1, 0, "image_1.png"⟩, ⟨1, 1, "image_2.png"⟩]
        {"image_1.png", "image_2.png"} (fun f => f != "image_2.png")).2 +
      (reconcileRun "" [⟨1, 0, "image_1.png"⟩, ⟨1, 1, "image_2.png"⟩]
        {"image_1.png", "image_2.png"} (fun f => f != "image_2.png")).1.card
        = ({"image_1.png", "image_2.png"} : Finset String).card) ∧
    (([⟨1, 1, "image_2.png"⟩] : List SavedImage).foldl
        (reconcileStep (usedImages "") (fun f => f != "image_2.png"))
        ({"image_1.png", "image_2.png"}, 0)
      = ([] : List SavedImage).foldl
        (reconcileStep (usedImages "") (fun f => f != "image_2.png"))
        ({"image_1.png", "image_2.png"}, 0)) ∧
    ConvertResult.imagesSaved ⟨"out.md", 2, 1⟩ = (savedImagesOf samplePdfInput).length :=
  ⟨(c7_deletion_failure_nonfatal "" [⟨1, 0, "image_1.png"⟩, ⟨1, 1, "image_2.png"⟩]
      {"image_1.png", "image_2.png"} (fun f => f != "image_2.png")).1,
   (c7_deletion_failure_nonfatal "" [⟨1, 0, "image_1.png"⟩, ⟨1, 1, "image_2.png"⟩]
      {"image_1.png", "image_2.png"} (fun f => f != "image_2.png")).2.1
      ({"image_1.png", "image_2.png"}, 0) ⟨1, 1, "image_2.png"⟩ [] (by decide),
   (c7_deletion_failure_nonfatal "" [] ∅ (fun _ => true)).2.2 samplePdfInput
      ⟨"out.md", 2, 1⟩ rfl⟩

/-- C8: the unused-image regex only captures names ending (case-insensitively)
in one of `.png/.jpg/.jpeg/.gif/.webp`.  Consequently a saved image whose
filename does not end in such an extension is treated as unused and deleted no
matter what the Markdown contains, and so is one whose filename is absent from
the captured set — e.g. one referenced only through a relative path differing
from the bare filename. -/
theorem c8_regex_extension_restriction :
    (∀ (md cap : String), cap ∈ usedImages md → validCapture cap.data = true) ∧
    (∀ (md : String) (saved : List SavedImage) (fs : Finset String) (img : SavedImage),
      img ∈ saved → img.filename ∈ fs → img.filename ∉ usedImages md →
      img.filename ∉ (reconcileRun md saved fs (fun _ => true)).1) ∧
    (∀ (md : String) (saved : List SavedImage) (fs : Finset String) (img : SavedImage),
      img ∈ saved → img.filename ∈ fs → validCapture img.filename.data = false →
      img.filename ∉ (reconcileRun md saved fs (fun _ => true)).1) := by
  refine ⟨usedImages_valid, ?_, ?_⟩
  · intro md saved fs img hmem _ hused
    exact reconcileFold_delete (usedImages md) (fun _ => true) img.filename hused rfl
      saved (fs, 0) ⟨img, hmem, rfl⟩
  · intro md saved fs img hmem hfs hext
    refine reconcileFold_delete (usedImages md) (fun _ => true) img.filename ?_ rfl
      saved (fs, 0) ⟨img, hmem, rfl⟩
    intro hused
    rw [usedImages_valid md img.filename hused] at hext
    exact Bool.true_eq_false.mp hext

/-- Witness for C8: `image_1.png` referenced only as `./image_1.png` is
deleted; `image_1.tiff` is deleted even though it is referenced verbatim,
since `tiff` is outside the regex's extension alternatives. -/
theorem c8_regex_extension_restriction_witness :
    validCapture "./image_1.png".data = true ∧
    "image_1.png" ∉ (reconcileRun "![a](./image_1.png)" [⟨1, 0, "image_1.png"⟩]
        {"image_1.png"} (fun _ => true)).1 ∧
    "image_1.tiff" ∉ (reconcileRun "![a](image_1.tiff)" [⟨1, 0, "image_1.tiff"⟩]
        {"image_1.tiff"} (fun _ => true)).1 :=
  ⟨c8_regex_extension_restriction.1 "![a](./image_1.png)" "./image_1.png" (by decide),
   c8_regex_extension_restriction.2.1 "![a](./image_1.png)" [⟨1, 0, "image_1.png"⟩]
     {"image_1.png"} ⟨1, 0, "image_1.png"⟩ (by decide) (by decide) (by decide),
   c8_regex_extension_restriction.2.2 "![a](image_1.tiff)" [⟨1, 0, "image_1.tiff"⟩]
     {"image_1.tiff"} ⟨1, 0, "image_1.tiff"⟩ (by decide) (by decide) (by decide)⟩

/-- C10: every run of `convert` that returns a `ConvertResult` satisfies
`imagesDeleted ≤ imagesSaved` — each saved image contributes at most one
deletion. -/
theorem c10_deleted_le_saved (inp : ConvertInput) (r : ConvertResult)
    (h : (convertModel inp).2 = Except.ok r) :
    r.imagesDeleted ≤ r.imagesSaved := by
  obtain ⟨hsaved, hdel⟩ := convertModel_ok_inv inp r h
  rw [hsaved, hdel]
  have hle := reconcileFold_count_le (usedImages inp.markdown) inp.unlinkOk
    (savedImagesOf inp)
    (((savedImagesOf inp).map (fun img => img.filename)).toFinset, 0)
  simpa using hle

/-- Witness for C10: the two-image sample PDF run returns `ok` with one
deletion and two saved images. -/
theorem c10_deleted_le_saved_witness :
    (convertModel samplePdfInput).2 = Except.ok ⟨"out.md", 2, 1⟩ ∧
    ConvertResult.imagesDeleted ⟨"out.md", 2, 1⟩ ≤ ConvertResult.imagesSaved ⟨"out.md", 2, 1⟩ :=
  ⟨rfl, c10_deleted_le_saved samplePdfInput ⟨"out.md", 2, 1⟩ rfl⟩

/-- C2, counterexample: the claim as stated is false.  On an existing input
file `input.txt`, `convert` fails with `UnsupportedFileType` as claimed, but
the input file's content has already been read (`readFile` at src/convert.ts
line 31 precedes the extension check at line 37), so the failure does not
occur before any I/O of the file's content. -/
theorem c2_counterexample :
    (convertModel sampleTxtInput).2
        = Except.error (ConvertError.unsupportedFileType ".txt") ∧
    Event.readContent "input.txt" ∈ (convertModel sampleTxtInput).1 :=
  ⟨rfl, by decide⟩

/-- C2 (amended): on an existing input file whose lower-cased extension is
outside the supported set, `convert` reads the input file's content (after the
existence check) and then fails with `UnsupportedFileType`; no file is written
to the output directory — the run's trace is exactly the existence probe
followed by the content read, and contains no write event. -/
theorem c2_unsupported_no_write (inp : ConvertInput)
    (hex : inp.fileExists = true)
    (hsupp : supportedExtensions.contains (extnameLower inp.inputFilePath) = false) :
    (convertModel inp).2
        = Except.error (ConvertError.unsupportedFileType (extnameLower inp.inputFilePath)) ∧
    (convertModel inp).1
        = [Event.existsCheck inp.inputFilePath, Event.readContent inp.inputFilePath] ∧
    ∀ e ∈ (convertModel inp).1, e.isWrite = false := by
  have hres : convertModel inp
      = ([Event.existsCheck inp.inputFilePath, Event.readContent inp.inputFilePath],
         Except.error (ConvertError.unsupportedFileType (extnameLower inp.inputFilePath))) := by
    simp only [convertModel, hex, hsupp, Bool.not_true, Bool.not_false]
    rfl
  rw [hres]
  refine ⟨rfl, rfl, ?_⟩
  intro e he
  rcases List.mem_cons.mp he with h | h
  · rw [h]; rfl
  · rcases List.mem_cons.mp h with h2 | h2
    · rw [h2]; rfl
    · exact absurd h2 (List.not_mem_nil e)

/-- Witness for C2 at the `.txt` sample input. -/
theorem c2_unsupported_no_write_witness :
    (convertModel sampleTxtInput).2
        = Except.error (ConvertError.unsupportedFileType ".txt") ∧
    ∀ e ∈ (convertModel sampleTxtInput).1, e.isWrite = false := by
  have h := c2_unsupported_no_write sampleTxtInput rfl rfl
  exact ⟨h.1, h.2.2⟩

/-- C3, counterexample: the claim as stated is false.  For a DOCX input with
one embedded image of content type `image/jpeg`, the single produced
`PageContent` has `imageFilenames = ["image_1.jpeg"]`, not the empty
sequence (src/convert.ts line 159 lists every saved image). -/
theorem c3_counterexample :
    (docxPageContents ["image/jpeg"] "h" "r").map (fun pc => pc.imageFilenames)
        = [["image_1.jpeg"]] ∧
    (["image_1.jpeg"] : List String) ≠ [] := by
  exact ⟨by decide, by decide⟩

/-- C3 (amended): a pure image input's single `PageContent` has an empty
`imageFilenames`; a DOCX input's single `PageContent` lists the filenames of
all saved embedded images — exactly those whose recorded page number is its
single page 1, in order; and a PDF page's `imageFilenames` is the ordered
sequence of filenames of the embedded images physically located on that page
(the images of page `i+1` saved with the global counter offset by the number
of images on earlier pages). -/
theorem c3_imageFilenames_per_page :
    (∀ b : String, (imagePageContents b).map (fun pc => pc.imageFilenames) = [[]]) ∧
    (∀ (cts : List String) (h r : String) (pc : PageContent),
      pc ∈ docxPageContents cts h r →
      pc.imageFilenames = ((docxSavedImages cts).filter
        (fun img => img.pageNumber == 1)).map (fun img => img.filename)) ∧
    (∀ (pdf : PdfData) (i : Nat) (hi : i < (pdfPageContents pdf).length),
      ((pdfPageContents pdf)[i]).imageFilenames
        = (pdfImagesAux (i + 1) ((pdf.imagePages.getD i none).getD [])
            (imagesBefore pdf.imagePages i) 0).map (fun e => e.filename)) := by
  refine ⟨fun b => rfl, ?_, pdfPageContents_getElem_imageFilenames⟩
  intro cts h r pc hmem
  have hpc : pc =
      { pageNumber := 1,
        text := "HTML Content:\n" ++ h ++ "\n\nRaw Text:\n" ++ r,
        imageBase64 := none,
        imageFilenames := (docxSavedImages cts).map (fun img => img.filename) } := by
    simpa [docxPageContents] using hmem
  have hfilter : (docxSavedImages cts).filter (fun img => img.pageNumber == 1)
      = docxSavedImages cts := by
    rw [List.filter_eq_self]
    intro e he
    have := docxAux_pageNumber cts 0 e he
    simp [this]
  rw [hpc, hfilter]

/-- Witness for C3: the single-image-per-page two-page PDF; page 2 carries
exactly the image saved under the global counter value 2, and a DOCX page
lists its images. -/
theorem c3_imageFilenames_per_page_witness :
    ((pdfPageContents { screenshotPages := [some "s1", some "s2"],
                        textPages := [some "t", none],
                        imagePages := [some [some 0], some [some 1]] }).get
        ⟨1, by decide⟩).imageFilenames
      = (pdfImagesAux 2 [some 1] 1 0).map (fun e => e.filename) ∧
    ((imagePageContents "B").map (fun pc => pc.imageFilenames) = [[]]) := by
  constructor
  · rw [List.get_eq_getElem]
    exact c3_imageFilenames_per_page.2.2
      { screenshotPages := [some "s1", some "s2"], textPages := [some "t", none],
        imagePages := [some [some 0], some [some 1]] } 1 (by decide)
  · exact c3_imageFilenames_per_page.1 "B"

/-- C4: within a run, saved image filenames are distinct, of the form
`image_<n>.<ext>` with the numeric part equal to one plus the image's
position in encounter order — a single counter running from 1 across the
whole document (PDF extraction, which never resets it per page, and DOCX
extraction alike), hence strictly increasing. -/
theorem c4_filenames_unique_increasing :
    (∀ (pages : List (Option (List (Option Nat)))),
      ((pdfSavedImages pages).map (fun e => e.filename)).Nodup ∧
      ∀ (i : Nat) (hi : i < (pdfSavedImages pages).length),
        ((pdfSavedImages pages)[i]).filename = mkImageFilename (i + 1) "png") ∧
    (∀ (cts : List String),
      ((docxSavedImages cts).map (fun e => e.filename)).Nodup ∧
      ∀ (i : Nat) (hi : i < (docxSavedImages cts).length),
        ((docxSavedImages cts)[i]).filename
          = mkImageFilename (i + 1) (extFromContentType (cts.getD i ""))) := by
  constructor
  · intro pages
    refine ⟨pdfSaved_filenames_nodup pages, ?_⟩
    intro i hi
    simp only [pdfSavedImages] at hi ⊢
    have hmap := pdfPagesAux_filenames pages 0 0
    have hi2 : i < ((pdfPagesAux pages 0 0).map (fun e => e.filename)).length := by
      simpa using hi
    have h1 : ((pdfPagesAux pages 0 0).map (fun e => e.filename))[i]
        = ((pdfPagesAux pages 0 0)[i]).filename := List.getElem_map _
    have h2 : ((pdfPagesAux pages 0 0).map (fun e => e.filename))[i]
        = mkImageFilename (0 + i + 1) "png" := by
      rw [List.getElem_of_eq hmap hi2]
      simp
    rw [← h1, h2]
    congr 1
    omega
  · intro cts
    refine ⟨docxSaved_filenames_nodup cts, ?_⟩
    intro i hi
    simp only [docxSavedImages] at hi ⊢
    have hmap := docxAux_filenames cts 0
    have hi2 : i < ((docxAux cts 0).map (fun e => e.filename)).length := by
      simpa using hi
    have h1 : ((docxAux cts 0).map (fun e => e.filename))[i]
        = ((docxAux cts 0)[i]).filename := List.getElem_map _
    have h2 : ((docxAux cts 0).map (fun e => e.filename))[i]
        = mkImageFilename (0 + i + 1) (extFromContentType (cts.getD i "")) := by
      rw [List.getElem_of_eq hmap hi2]
      simp
    rw [← h1, h2]
    congr 1
    omega

/-- Witness for C4: in the two-page sample PDF the second encountered image is
saved as `image_2.png`, and a one-image DOCX run has distinct filenames. -/
theorem c4_filenames_unique_increasing_witness :
    ((pdfSavedImages [some [some 0], some [some 1]]).get ⟨1, by decide⟩).filename
        = mkImageFilename 2 "png" ∧
    ((docxSavedImages ["image/jpeg"]).map (fun e => e.filename)).Nodup := by
  constructor
  · rw [List.get_eq_getElem]
    exact (c4_filenames_unique_increasing.1 [some [some 0], some [some 1]]).2 1 (by decide)
  · exact (c4_filenames_unique_increasing.2 ["image/jpeg"]).1

/-- C5: for a PDF whose parser reports N pages, the `PageContent` sequence
has exactly N entries with page numbers 1..N, contiguous and in document
order; a DOCX or bare-image input produces exactly one `PageContent` with
page number 1. -/
theorem c5_page_numbering :
    (∀ (pdf : PdfData) (N : Nat), pdf.screenshotPages.length = N →
      (pdfPageContents pdf).length = N ∧
      (pdfPageContents pdf).map (fun pc => pc.pageNumber) = List.range' 1 N) ∧
    (∀ (cts : List String) (h r : String),
      (docxPageContents cts h r).map (fun pc => pc.pageNumber) = [1]) ∧
    (∀ b : String, (imagePageContents b).map (fun pc => pc.pageNumber) = [1]) := by
  refine ⟨?_, fun cts h r => rfl, fun b => rfl⟩
  intro pdf N hN
  subst hN
  exact ⟨pdfPageContents_length pdf, pdfPageContents_pageNumbers pdf⟩

/-- Witness for C5: the sample two-page PDF yields pages numbered `[1, 2]`. -/
theorem c5_page_numbering_witness :
    (pdfPageContents { screenshotPages := [some "a", none],
                       textPages := [some "t", none],
                       imagePages := [none, none] }).map (fun pc => pc.pageNumber)
      = List.range' 1 2 :=
  (c5_page_numbering.1
    { screenshotPages := [some "a", none], textPages := [some "t", none],
      imagePages := [none, none] } 2 rfl).2

set_option maxRecDepth 4000

/-- C9: instruction selection.  For a PDF with `respectPages = false` (the
configured default) the assembled instruction explicitly forbids inserting
page separators (`Do NOT insert horizontal rules (---) between pages`), its
single occurrence of `insert` is that forbidding sentence, and it contains no
`page separator` instruction; for `respectPages = true` it references
per-page screenshot use; for the docx and image kinds the selected
instruction is the same fixed template for either value of `respectPages`. -/
theorem c9_instruction_selection :
    (initialInstruction ".pdf" false = pdfMergeInstruction ∧
     hasSub "Do NOT insert horizontal rules (---) between pages".data
       pdfMergeInstruction.data = true ∧
     countSub "insert".data pdfMergeInstruction.data = 1 ∧
     hasSub "page separator".data pdfMergeInstruction.data = false) ∧
    (initialInstruction ".pdf" true = pdfRespectPagesInstruction ∧
     hasSub "For each page, I will provide the extracted text and a screenshot image".data
       pdfRespectPagesInstruction.data = true) ∧
    (∀ b : Bool, initialInstruction ".docx" b = docxInstruction) ∧
    (∀ ext ∈ imageExtensions, ∀ b : Bool, initialInstruction ext b = imageInstruction) := by
  refine ⟨⟨rfl, by decide, by decide, by decide⟩, ⟨rfl, by decide⟩, by decide, ?_⟩
  decide

/-- Witness for C9: the image-kind selection applied at `.png`. -/
theorem c9_instruction_selection_witness :
    initialInstruction ".png" true = imageInstruction ∧
    initialInstruction ".png" false = imageInstruction :=
  ⟨c9_instruction_selection.2.2.2 ".png" (by decide) true,
   c9_instruction_selection.2.2.2 ".png" (by decide) false⟩
